import Mathlib

/-!
A verification development for the DRAM command-queue arbiter of a
cycle-accurate DRAM simulator.  The definitions below are a shallow embedding
of `src/command_queue.cc`: each C++ member function of `CommandQueue` becomes a
Lean function of the same name, with the mutable members carried as an explicit
`CommandQueue` record.  The channel state (`channel_state.cc` is not part of
the staged sources; `channel_state.h` only declares its interface) is kept
abstract as a record of the query functions `CommandQueue` actually calls, so
the theorems hold for an arbitrary channel state.  Statistics counters are an
opaque sink and are dropped from the state.
-/

namespace Dramsim3

/-- Modelled from the spec: the `CommandType` enumeration of the data model
(§3); its declaration lives in `common.h`, which is not among the staged
sources. -/
inductive CommandType where
  | READ
  | READ_PRECHARGE
  | WRITE
  | WRITE_PRECHARGE
  | ACTIVATE
  | PRECHARGE
  | REFRESH
  | REFRESH_BANK
  | SREF_ENTER
  | SREF_EXIT
  | INVALID
  deriving DecidableEq, Repr

/-- Modelled from the spec: the `Address` record of the data model (§3); the
fields `CommandQueue` reads are the rank/bankgroup/bank indices and the
row/column coordinates. -/
structure Address where
  rank : Nat
  bankgroup : Nat
  bank : Nat
  row : Int
  column : Int
  deriving DecidableEq, Repr

/-- Modelled from the spec: a `Command` is a command type plus an address and
the linear (hex) address (§3). -/
structure Command where
  cmd_type : CommandType
  addr : Address
  hex_addr : Nat
  deriving DecidableEq, Repr

def Command.Rank (c : Command) : Nat := c.addr.rank

def Command.Bankgroup (c : Command) : Nat := c.addr.bankgroup

def Command.Bank (c : Command) : Nat := c.addr.bank

def Command.Row (c : Command) : Int := c.addr.row

def Command.Column (c : Command) : Int := c.addr.column

/-- The default-constructed `Command()`: an invalid command. -/
def Command.invalid : Command :=
  { cmd_type := CommandType.INVALID,
    addr := { rank := 0, bankgroup := 0, bank := 0, row := 0, column := 0 },
    hex_addr := 0 }

/-- Modelled from the spec: "A command is *valid* iff type ≠ INVALID" (§3);
`Command::IsValid` lives in `common.h`, which is not among the staged
sources. -/
def Command.IsValid (c : Command) : Bool :=
  decide (c.cmd_type ≠ CommandType.INVALID)

/-- Modelled from the spec: a read is `READ` or its auto-precharge variant
`READ_PRECHARGE` (§3). -/
def Command.IsRead (c : Command) : Bool :=
  decide (c.cmd_type = CommandType.READ) ||
    decide (c.cmd_type = CommandType.READ_PRECHARGE)

/-- Modelled from the spec: a write is `WRITE` or its auto-precharge variant
`WRITE_PRECHARGE` (§3). -/
def Command.IsWrite (c : Command) : Bool :=
  decide (c.cmd_type = CommandType.WRITE) ||
    decide (c.cmd_type = CommandType.WRITE_PRECHARGE)

def Command.IsReadWrite (c : Command) : Bool := c.IsRead || c.IsWrite

/-- Modelled from the spec: the refresh commands are `REFRESH` (rank-wide) and
`REFRESH_BANK` (per-bank) (§3, §4.4). -/
def Command.IsRefresh (c : Command) : Bool :=
  decide (c.cmd_type = CommandType.REFRESH) ||
    decide (c.cmd_type = CommandType.REFRESH_BANK)

/-- The slice of `ChannelState` that `CommandQueue` queries (declared in
`channel_state.h`): `GetReadyCommand`, `OpenRow`, `RowHitCount` and
`PendingRefCommand`.  Their implementations live in `channel_state.cc`, which
is not among the staged sources, so they are carried as abstract functions:
every theorem about the arbiter below holds for an arbitrary channel state. -/
structure ChannelState where
  getReadyCommand : Command → Nat → Command
  openRow : Nat → Nat → Nat → Int
  rowHitCount : Nat → Nat → Nat → Int
  pendingRef : Command

/-- The configuration fields `CommandQueue` reads (`configuration.h`). -/
structure Config where
  ranks : Nat
  banks : Nat
  banks_per_group : Nat
  cmd_queue_size : Nat
  queue_structure : String

inductive QueueStructure where
  | PER_BANK
  | PER_RANK
  deriving DecidableEq, Repr

/-- The mutable members of `CommandQueue` (`command_queue.h` via
`command_queue.cc`), plus the borrowed `config_` and `channel_state_`.
`ref_q_indices_` (`std::unordered_set<int>`) is a duplicate-free list of
queue indices; `simple_stats_` is an opaque counter sink and is dropped. -/
structure CommandQueue where
  rank_q_empty : List Bool
  config : Config
  channel_state : ChannelState
  is_in_ref : Bool
  queue_structure : QueueStructure
  num_queues : Nat
  queue_size : Nat
  queue_idx : Nat
  clk : Nat
  ref_q_indices : List Nat
  queues : List (List Command)

/-- Insertion into the `std::unordered_set<int>` of blocked queue indices. -/
def setInsert (s : List Nat) (i : Nat) : List Nat :=
  if s.contains i then s else i :: s

/-- Constructor `CommandQueue::CommandQueue` (command_queue.cc:5-31).  An unsupported
`queue_structure` string calls `AbruptExit`; that abort is modelled as
`none`. -/
def mkCommandQueue (config : Config) (channel_state : ChannelState) :
    Option CommandQueue :=
  if config.queue_structure = "PER_BANK" then
    some { rank_q_empty := List.replicate config.ranks true,
           config := config,
           channel_state := channel_state,
           is_in_ref := false,
           queue_structure := QueueStructure.PER_BANK,
           num_queues := config.banks * config.ranks,
           queue_size := config.cmd_queue_size,
           queue_idx := 0,
           clk := 0,
           ref_q_indices := [],
           queues := List.replicate (config.banks * config.ranks) [] }
  else if config.queue_structure = "PER_RANK" then
    some { rank_q_empty := List.replicate config.ranks true,
           config := config,
           channel_state := channel_state,
           is_in_ref := false,
           queue_structure := QueueStructure.PER_RANK,
           num_queues := config.ranks,
           queue_size := config.cmd_queue_size,
           queue_idx := 0,
           clk := 0,
           ref_q_indices := [],
           queues := List.replicate config.ranks [] }
  else none

/-- Function `CommandQueue::GetQueueIndex` (command_queue.cc:207-213). -/
def CommandQueue.GetQueueIndex (cq : CommandQueue)
    (rank bankgroup bank : Nat) : Nat :=
  match cq.queue_structure with
  | QueueStructure.PER_RANK => rank
  | QueueStructure.PER_BANK =>
      rank * cq.config.banks + bankgroup * cq.config.banks_per_group + bank

/-- Function `CommandQueue::WillAcceptCommand` (command_queue.cc:152-155). -/
def CommandQueue.WillAcceptCommand (cq : CommandQueue)
    (rank bankgroup bank : Nat) : Bool :=
  decide ((cq.queues.getD (cq.GetQueueIndex rank bankgroup bank) []).length <
    cq.queue_size)

/-- Function `CommandQueue::AddCommand` (command_queue.cc:166-175): push the command at
the tail of `GetQueue(rank, bankgroup, bank)` when that queue has space,
marking the rank non-empty; otherwise report failure and change nothing. -/
def CommandQueue.AddCommand (cq : CommandQueue) (cmd : Command) :
    Bool × CommandQueue :=
  let i := cq.GetQueueIndex cmd.Rank cmd.Bankgroup cmd.Bank
  let queue := cq.queues.getD i []
  if queue.length < cq.queue_size then
    (true, { cq with
              queues := cq.queues.set i (queue ++ [cmd]),
              rank_q_empty := cq.rank_q_empty.set cmd.Rank false })
  else
    (false, cq)

/-- The same-bank test of `ArbitratePrecharge`'s first loop
(command_queue.cc:117-119). -/
def sameBank (p cmd : Command) : Bool :=
  decide (p.Rank = cmd.Rank ∧ p.Bankgroup = cmd.Bankgroup ∧ p.Bank = cmd.Bank)

/-- Function `CommandQueue::ArbitratePrecharge` (command_queue.cc:110-150).  The queue
is split around the iterator: `prevs` is `[begin, cmd_it)`, `cmd` is `*cmd_it`
and `rest` is the remainder, so the pending scan runs over `cmd :: rest`.  The
statistics increment on acceptance is dropped. -/
def CommandQueue.ArbitratePrecharge (cq : CommandQueue)
    (prevs : List Command) (cmd : Command) (rest : List Command) : Bool :=
  if prevs.any (fun p => sameBank p cmd) then false
  else
    let open_row := cq.channel_state.openRow cmd.Rank cmd.Bankgroup cmd.Bank
    let pending_row_hits_exist := (cmd :: rest).any (fun p =>
      decide (p.Row = open_row ∧ p.Bank = cmd.Bank ∧
        p.Bankgroup = cmd.Bankgroup ∧ p.Rank = cmd.Rank))
    let rowhit_limit_reached :=
      decide (4 ≤ cq.channel_state.rowHitCount cmd.Rank cmd.Bankgroup cmd.Bank)
    !pending_row_hits_exist || rowhit_limit_reached

/-- Function `CommandQueue::HasRWDependency` (command_queue.cc:260-272): some earlier
entry (`prevs`) is a READ to the entry's row, column, bank and bankgroup. -/
def HasRWDependency (prevs : List Command) (cmd : Command) : Bool :=
  prevs.any (fun p =>
    p.IsRead && decide (p.Row = cmd.Row ∧ p.Column = cmd.Column ∧
      p.Bank = cmd.Bank ∧ p.Bankgroup = cmd.Bankgroup))

/-- The loop of `CommandQueue::GetFirstReadyInQueue` (command_queue.cc:220-238)
with the already-visited prefix `prevs` made explicit (the C++ iterators into
one vector become the split `prevs` / remainder). -/
def getFirstReadyAux (cq : CommandQueue) :
    List Command → List Command → Command
  | _, [] => Command.invalid
  | prevs, e :: rest =>
    let c := cq.channel_state.getReadyCommand e cq.clk
    if !c.IsValid then getFirstReadyAux cq (prevs ++ [e]) rest
    else if c.cmd_type = CommandType.PRECHARGE then
      if !cq.ArbitratePrecharge prevs e rest then
        getFirstReadyAux cq (prevs ++ [e]) rest
      else c
    else if c.IsWrite then
      if HasRWDependency prevs e then getFirstReadyAux cq (prevs ++ [e]) rest
      else c
    else c

/-- Function `CommandQueue::GetFirstReadyInQueue` (command_queue.cc:220-238). -/
def CommandQueue.GetFirstReadyInQueue (cq : CommandQueue)
    (queue : List Command) : Command :=
  getFirstReadyAux cq [] queue

/-- The erase loop of `CommandQueue::EraseRWCommand` (command_queue.cc:242-247)
on one queue: remove the first entry matching on `(hex_addr, cmd_type)`;
`none` when no entry matches (the C++ prints a diagnostic and exits). -/
def eraseFirstRW : List Command → Command → Option (List Command)
  | [], _ => none
  | e :: rest, cmd =>
    if cmd.hex_addr = e.hex_addr ∧ cmd.cmd_type = e.cmd_type then some rest
    else (eraseFirstRW rest cmd).map (fun l => e :: l)

/-- Function `CommandQueue::EraseRWCommand` (command_queue.cc:240-250): erase in the
queue addressed by the command's own (rank, bankgroup, bank). -/
def CommandQueue.EraseRWCommand (cq : CommandQueue) (cmd : Command) :
    Option CommandQueue :=
  let j := cq.GetQueueIndex cmd.Rank cmd.Bankgroup cmd.Bank
  match eraseFirstRW (cq.queues.getD j []) cmd with
  | some q => some { cq with queues := cq.queues.set j q }
  | none => none

/-- What one call of `CommandQueue::GetCommandToIssue` does: return a valid
command drawn from queue `qidx` with the updated state, return the invalid
`Command()` with the updated state, or hit the `exit(1)` inside
`EraseRWCommand`. -/
inductive IssueResult where
  | issued (cmd : Command) (qidx : Nat) (cq : CommandQueue)
  | nocmd (cq : CommandQueue)
  | aborted

/-- The round-robin advance of `CommandQueue::GetNextQueue`
(command_queue.cc:177-183): increment `queue_idx_`, wrapping to 0 at
`num_queues_`. -/
def nextQueueIdx (cq : CommandQueue) : Nat :=
  if cq.queue_idx + 1 = cq.num_queues then 0 else cq.queue_idx + 1

/-- The loop of `CommandQueue::GetCommandToIssue` (command_queue.cc:33-51).
Each iteration advances the round-robin pointer via `GetNextQueue`; `fuel`
counts the remaining iterations of `for i in 0..num_queues`. -/
def getCommandToIssueAux : CommandQueue → Nat → IssueResult
  | cq, 0 => IssueResult.nocmd cq
  | cq, fuel + 1 =>
    let cq1 := { cq with queue_idx := nextQueueIdx cq }
    if cq1.is_in_ref && cq1.ref_q_indices.contains cq1.queue_idx then
      getCommandToIssueAux cq1 fuel
    else
      let c := cq1.GetFirstReadyInQueue (cq1.queues.getD cq1.queue_idx [])
      if c.IsValid then
        if c.IsReadWrite then
          match cq1.EraseRWCommand c with
          | some cq2 => IssueResult.issued c cq1.queue_idx cq2
          | none => IssueResult.aborted
        else IssueResult.issued c cq1.queue_idx cq1
      else getCommandToIssueAux cq1 fuel

/-- Function `CommandQueue::GetCommandToIssue` (command_queue.cc:33-51). -/
def CommandQueue.GetCommandToIssue (cq : CommandQueue) : IssueResult :=
  getCommandToIssueAux cq cq.num_queues

/-- Function `CommandQueue::GetRefQIndices` (command_queue.cc:185-205): the queue
indices covered by the pending refresh are inserted into `ref_q_indices_`; the
new contents of that set are returned. -/
def CommandQueue.GetRefQIndices (cq : CommandQueue) (ref : Command) :
    List Nat :=
  if ref.cmd_type = CommandType.REFRESH then
    if cq.queue_structure = QueueStructure.PER_BANK then
      (List.range cq.num_queues).foldl
        (fun s i => if i / cq.config.banks = ref.Rank then setInsert s i else s)
        cq.ref_q_indices
    else setInsert cq.ref_q_indices ref.Rank
  else
    setInsert cq.ref_q_indices (cq.GetQueueIndex ref.Rank ref.Bankgroup ref.Bank)

/-- Function `CommandQueue::FinishRefresh` (command_queue.cc:53-108). -/
def CommandQueue.FinishRefresh (cq : CommandQueue) : Command × CommandQueue :=
  let ref := cq.channel_state.pendingRef
  let cq1 :=
    if !cq.is_in_ref then
      { cq with ref_q_indices := cq.GetRefQIndices ref, is_in_ref := true }
    else cq
  let cmd := cq.channel_state.getReadyCommand ref cq.clk
  if cmd.IsRefresh then
    (cmd, { cq1 with ref_q_indices := [], is_in_ref := false })
  else (cmd, cq1)

/-! ### Helper lemmas -/

theorem setInsert_self (s : List Nat) (i : Nat) : i ∈ setInsert s i := by
  unfold setInsert
  split
  · rename_i h
    simpa [List.contains] using h
  · exact List.mem_cons_self i s

theorem mem_setInsert (s : List Nat) (i j : Nat) (h : j ∈ setInsert s i) :
    j = i ∨ j ∈ s := by
  unfold setInsert at h
  split at h
  · exact Or.inr h
  · rcases List.mem_cons.mp h with h | h
    · exact Or.inl h
    · exact Or.inr h

/-! ### Concrete instances for witnesses -/

/-- A channel state for concrete evaluations: `GetReadyCommand` passes the
queue entry through unchanged. -/
def csId : ChannelState :=
  { getReadyCommand := fun c _ => c,
    openRow := fun _ _ _ => 0,
    rowHitCount := fun _ _ _ => 0,
    pendingRef := Command.invalid }

def cfg1 : Config :=
  { ranks := 1, banks := 1, banks_per_group := 1, cmd_queue_size := 2,
    queue_structure := "PER_RANK" }

def cfg2 : Config :=
  { ranks := 2, banks := 2, banks_per_group := 2, cmd_queue_size := 4,
    queue_structure := "PER_RANK" }

/-- A READ to rank 0, linear address 5. -/
def rd5 : Command :=
  { cmd_type := CommandType.READ,
    addr := { rank := 0, bankgroup := 0, bank := 0, row := 0, column := 0 },
    hex_addr := 5 }

/-- A single-bank refresh to rank 1. -/
def refb1 : Command :=
  { cmd_type := CommandType.REFRESH_BANK,
    addr := { rank := 1, bankgroup := 0, bank := 1, row := 0, column := 0 },
    hex_addr := 0 }

def cq7w : CommandQueue :=
  { rank_q_empty := [true], config := cfg1, channel_state := csId,
    is_in_ref := false, queue_structure := QueueStructure.PER_RANK,
    num_queues := 1, queue_size := 2, queue_idx := 0, clk := 0,
    ref_q_indices := [], queues := [[]] }

def cq9w : CommandQueue :=
  { rank_q_empty := [true, true], config := cfg2, channel_state := csId,
    is_in_ref := false, queue_structure := QueueStructure.PER_RANK,
    num_queues := 2, queue_size := 4, queue_idx := 0, clk := 0,
    ref_q_indices := [], queues := [[], []] }

/-! ### Claim theorems -/

/-- C10: `WillAcceptCommand(rank, bankgroup, bank)` answers exactly what an
immediately following `AddCommand` of a command addressed to the same
(rank, bankgroup, bank) would return: both compare the length of the same
queue against the queue-size bound. -/
theorem willAccept_agrees_addCommand (cq : CommandQueue) (cmd : Command) :
    cq.WillAcceptCommand cmd.Rank cmd.Bankgroup cmd.Bank =
      (cq.AddCommand cmd).1 := by
  simp only [CommandQueue.WillAcceptCommand, CommandQueue.AddCommand]
  split
  · rename_i h
    simpa using h
  · rename_i h
    simpa using h

/-- C7: `AddCommand(c)` returns `true` and appends `c` at the tail of the
queue indexed by `c`'s (rank, bankgroup, bank) iff that queue's length is
strictly below `cmd_queue_size` (the constructor copies `cmd_queue_size` into
`queue_size_`, the hypothesis `hsize`); on `false` the whole state is
unchanged; and every queue's length stays at most `cmd_queue_size`. -/
theorem addCommand_backpressure (cq : CommandQueue) (cmd : Command)
    (hsize : cq.queue_size = cq.config.cmd_queue_size)
    (hrange : cq.GetQueueIndex cmd.Rank cmd.Bankgroup cmd.Bank <
      cq.queues.length) :
    ((cq.AddCommand cmd).1 = true ↔
      (cq.queues.getD (cq.GetQueueIndex cmd.Rank cmd.Bankgroup cmd.Bank)
        []).length < cq.config.cmd_queue_size) ∧
    ((cq.AddCommand cmd).1 = true →
      (cq.AddCommand cmd).2.queues.getD
          (cq.GetQueueIndex cmd.Rank cmd.Bankgroup cmd.Bank) [] =
        cq.queues.getD (cq.GetQueueIndex cmd.Rank cmd.Bankgroup cmd.Bank) []
          ++ [cmd] ∧
      ∀ k, k ≠ cq.GetQueueIndex cmd.Rank cmd.Bankgroup cmd.Bank →
        (cq.AddCommand cmd).2.queues.getD k [] = cq.queues.getD k []) ∧
    ((cq.AddCommand cmd).1 = false → (cq.AddCommand cmd).2 = cq) ∧
    ((∀ q ∈ cq.queues, q.length ≤ cq.config.cmd_queue_size) →
      ∀ q ∈ (cq.AddCommand cmd).2.queues,
        q.length ≤ cq.config.cmd_queue_size) := by
  have hlen : (cq.queues.getD (cq.GetQueueIndex cmd.Rank cmd.Bankgroup
      cmd.Bank) []).length < cq.queue_size ↔
      (cq.queues.getD (cq.GetQueueIndex cmd.Rank cmd.Bankgroup
        cmd.Bank) []).length < cq.config.cmd_queue_size := by
    rw [hsize]
  by_cases h : (cq.queues.getD (cq.GetQueueIndex cmd.Rank cmd.Bankgroup
      cmd.Bank) []).length < cq.queue_size
  · have hfst : (cq.AddCommand cmd).1 = true := by
      simp only [CommandQueue.AddCommand]
      rw [if_pos h]
    have hsnd : (cq.AddCommand cmd).2 = { cq with
        queues := cq.queues.set
          (cq.GetQueueIndex cmd.Rank cmd.Bankgroup cmd.Bank)
          (cq.queues.getD (cq.GetQueueIndex cmd.Rank cmd.Bankgroup cmd.Bank)
            [] ++ [cmd]),
        rank_q_empty := cq.rank_q_empty.set cmd.Rank false } := by
      simp only [CommandQueue.AddCommand]
      rw [if_pos h]
    refine ⟨⟨fun _ => hlen.mp h, fun _ => hfst⟩, ?_, ?_, ?_⟩
    · intro _
      rw [hsnd]
      constructor
      · show (cq.queues.set (cq.GetQueueIndex cmd.Rank cmd.Bankgroup cmd.Bank)
            (cq.queues.getD (cq.GetQueueIndex cmd.Rank cmd.Bankgroup cmd.Bank)
              [] ++ [cmd])).getD
            (cq.GetQueueIndex cmd.Rank cmd.Bankgroup cmd.Bank) [] = _
        rw [List.getD_eq_getElem?_getD, List.getElem?_set_self hrange]
        rfl
      · intro k hk
        show (cq.queues.set (cq.GetQueueIndex cmd.Rank cmd.Bankgroup cmd.Bank)
            (cq.queues.getD (cq.GetQueueIndex cmd.Rank cmd.Bankgroup cmd.Bank)
              [] ++ [cmd])).getD k [] = _
        rw [List.getD_eq_getElem?_getD, List.getElem?_set_ne (Ne.symm hk),
          ← List.getD_eq_getElem?_getD]
    · intro hfalse
      rw [hfst] at hfalse
      cases hfalse
    · intro hall q hq
      rw [hsnd] at hq
      have hq' : q ∈ cq.queues.set
          (cq.GetQueueIndex cmd.Rank cmd.Bankgroup cmd.Bank)
          (cq.queues.getD (cq.GetQueueIndex cmd.Rank cmd.Bankgroup cmd.Bank)
            [] ++ [cmd]) := hq
      rcases List.mem_or_eq_of_mem_set hq' with hm | hm
      · exact hall q hm
      · subst hm
        have hb := hlen.mp h
        simp only [List.length_append, List.length_singleton]
        omega
  · have hA : cq.AddCommand cmd = (false, cq) := by
      simp only [CommandQueue.AddCommand]
      rw [if_neg h]
    rw [hA]
    refine ⟨?_, ?_, ?_, ?_⟩
    · constructor
      · intro htrue
        cases htrue
      · intro hc
        exact absurd (hlen.mpr hc) h
    · intro htrue
      cases htrue
    · intro _
      rfl
    · intro hall q hq
      exact hall q hq

theorem addCommand_backpressure_witness : (cq7w.AddCommand rd5).1 = true :=
  ((addCommand_backpressure cq7w rd5 rfl (by decide)).1).mpr (by decide)

/-- C8: construction with `queue_structure` `"PER_RANK"` yields `ranks`
queues, with `"PER_BANK"` it yields `ranks × banks` queues, any other string
aborts (modelled as `none`); and `GetQueueIndex` maps (rank, bankgroup, bank)
to `rank` under PER_RANK and to
`rank·banks + bankgroup·banks_per_group + bank` under PER_BANK. -/
theorem mkCommandQueue_structure (config : Config) (cs : ChannelState) :
    (config.queue_structure = "PER_RANK" →
      ∃ cq, mkCommandQueue config cs = some cq ∧
        cq.num_queues = config.ranks ∧
        cq.queues.length = config.ranks ∧
        ∀ rank bankgroup bank,
          cq.GetQueueIndex rank bankgroup bank = rank) ∧
    (config.queue_structure = "PER_BANK" →
      ∃ cq, mkCommandQueue config cs = some cq ∧
        cq.num_queues = config.ranks * config.banks ∧
        cq.queues.length = config.ranks * config.banks ∧
        ∀ rank bankgroup bank,
          cq.GetQueueIndex rank bankgroup bank =
            rank * config.banks + bankgroup * config.banks_per_group + bank) ∧
    (config.queue_structure ≠ "PER_RANK" →
      config.queue_structure ≠ "PER_BANK" →
      mkCommandQueue config cs = none) := by
  refine ⟨?_, ?_, ?_⟩
  · intro h
    have hne : ¬config.queue_structure = "PER_BANK" := by
      rw [h]
      decide
    rw [mkCommandQueue, if_neg hne, if_pos h]
    exact ⟨_, rfl, rfl, by simp, fun rank bankgroup bank => rfl⟩
  · intro h
    rw [mkCommandQueue, if_pos h]
    exact ⟨_, rfl, Nat.mul_comm _ _, by simp [Nat.mul_comm],
      fun rank bankgroup bank => rfl⟩
  · intro h1 h2
    rw [mkCommandQueue, if_neg h2, if_neg h1]

/-- C9: under the PER_RANK queue structure a pending `REFRESH_BANK` makes
`GetRefQIndices` insert the rank's queue index (and nothing else) into
`ref_q_indices_`; since under PER_RANK every (bankgroup, bank) of that rank
maps to that same queue index, the whole rank's queue is blocked during the
single-bank refresh, not only traffic to the refreshing bank. -/
theorem refreshBank_blocks_whole_rank (cq : CommandQueue) (ref : Command)
    (hqs : cq.queue_structure = QueueStructure.PER_RANK)
    (htype : ref.cmd_type = CommandType.REFRESH_BANK) :
    ref.Rank ∈ cq.GetRefQIndices ref ∧
    (∀ bankgroup bank, cq.GetQueueIndex ref.Rank bankgroup bank = ref.Rank) ∧
    (∀ j, j ∈ cq.GetRefQIndices ref → j = ref.Rank ∨ j ∈ cq.ref_q_indices) := by
  have hidx : ∀ bankgroup bank,
      cq.GetQueueIndex ref.Rank bankgroup bank = ref.Rank := by
    intro bankgroup bank
    simp [CommandQueue.GetQueueIndex, hqs]
  have hnotref : ¬ref.cmd_type = CommandType.REFRESH := by
    rw [htype]
    decide
  have hG : cq.GetRefQIndices ref = setInsert cq.ref_q_indices ref.Rank := by
    rw [CommandQueue.GetRefQIndices, if_neg hnotref, hidx]
  rw [hG]
  exact ⟨setInsert_self _ _, hidx, fun j hj => mem_setInsert _ _ _ hj⟩

theorem refreshBank_blocks_whole_rank_witness :
    (1 : Nat) ∈ cq9w.GetRefQIndices refb1 :=
  (refreshBank_blocks_whole_rank cq9w refb1 rfl rfl).1

/-- C2: `ArbitratePrecharge` rejects when some earlier entry of the queue
targets the same (rank, bankgroup, bank); otherwise it accepts iff no entry
from the candidate to the end of the queue targets the bank's open row on the
same (rank, bankgroup, bank), or the bank's row-hit count has reached 4 — so
a row-hit count of at least 4 forces acceptance even when later row-hit
entries exist. -/
theorem arbitratePrecharge_accepts_iff (cq : CommandQueue)
    (prevs : List Command) (e : Command) (rest : List Command) :
    cq.ArbitratePrecharge prevs e rest = true ↔
      ((∀ p ∈ prevs, ¬(p.Rank = e.Rank ∧ p.Bankgroup = e.Bankgroup ∧
          p.Bank = e.Bank)) ∧
       ((∀ q ∈ e :: rest,
           ¬(q.Row = cq.channel_state.openRow e.Rank e.Bankgroup e.Bank ∧
             q.Bank = e.Bank ∧ q.Bankgroup = e.Bankgroup ∧ q.Rank = e.Rank)) ∨
        4 ≤ cq.channel_state.rowHitCount e.Rank e.Bankgroup e.Bank)) := by
  rw [CommandQueue.ArbitratePrecharge]
  split
  · rename_i h
    simp only [List.any_eq_true, sameBank, decide_eq_true_eq] at h
    obtain ⟨p, hp, hpe⟩ := h
    constructor
    · intro hf
      cases hf
    · rintro ⟨hall, -⟩
      exact absurd hpe (hall p hp)
  · rename_i h
    simp only [List.any_eq_true, sameBank, decide_eq_true_eq] at h
    have hall : ∀ p ∈ prevs, ¬(p.Rank = e.Rank ∧ p.Bankgroup = e.Bankgroup ∧
        p.Bank = e.Bank) := by
      intro p hp hc
      exact h ⟨p, hp, hc⟩
    simp only [Bool.or_eq_true, Bool.not_eq_true', List.any_eq_false,
      decide_eq_true_eq]
    constructor
    · intro hor
      exact ⟨hall, hor⟩
    · rintro ⟨-, hor⟩
      exact hor

/-! ### The queue walk of `GetFirstReadyInQueue`, spec side -/

/-- Whether, per §4.5 step 3 of the spec, the queue entry `e` — with the
entries before it in `prevs` and after it in `rest` — yields a command:
ChannelState's ready command must be valid, a PRECHARGE must pass precharge
arbitration, and a WRITE must be free of write-after-read dependencies. -/
def entryOK (cq : CommandQueue) (prevs : List Command) (e : Command)
    (rest : List Command) : Bool :=
  let c := cq.channel_state.getReadyCommand e cq.clk
  c.IsValid &&
    (!(decide (c.cmd_type = CommandType.PRECHARGE)) ||
      cq.ArbitratePrecharge prevs e rest) &&
    (!c.IsWrite || !(HasRWDependency prevs e))

/-- The spec's reading of `GetFirstReadyInQueue` (§4.5): walk the entries in
insertion order and return ChannelState's ready command for the first entry
that yields one; if no entry yields a command, return an INVALID command. -/
def CommandQueue.specFirstReady (cq : CommandQueue) (queue : List Command) :
    Command :=
  match (List.range queue.length).find? (fun i =>
      entryOK cq (queue.take i) (queue.getD i Command.invalid)
        (queue.drop (i + 1))) with
  | some i => cq.channel_state.getReadyCommand (queue.getD i Command.invalid)
      cq.clk
  | none => Command.invalid

theorem precharge_not_write (c : Command)
    (h : c.cmd_type = CommandType.PRECHARGE) : c.IsWrite = false := by
  simp [Command.IsWrite, h]

theorem getFirstReadyAux_cons (cq : CommandQueue) (prevs : List Command)
    (e : Command) (rest : List Command) :
    getFirstReadyAux cq prevs (e :: rest) =
      if entryOK cq prevs e rest then
        cq.channel_state.getReadyCommand e cq.clk
      else getFirstReadyAux cq (prevs ++ [e]) rest := by
  simp only [getFirstReadyAux, entryOK]
  by_cases hv : (cq.channel_state.getReadyCommand e cq.clk).IsValid = true
  · by_cases hp :
        (cq.channel_state.getReadyCommand e cq.clk).cmd_type =
          CommandType.PRECHARGE
    · by_cases ha : cq.ArbitratePrecharge prevs e rest = true
      · simp [hv, hp, ha, precharge_not_write _ hp]
      · rw [Bool.not_eq_true] at ha
        simp [hv, hp, ha]
    · by_cases hw : (cq.channel_state.getReadyCommand e cq.clk).IsWrite = true
      · by_cases hd : HasRWDependency prevs e = true
        · simp [hv, hp, hw, hd]
        · rw [Bool.not_eq_true] at hd
          simp [hv, hp, hw, hd]
      · rw [Bool.not_eq_true] at hw
        simp [hv, hp, hw]
  · rw [Bool.not_eq_true] at hv
    simp [hv]

theorem find_range_succ (n : Nat) (p : Nat → Bool) :
    (List.range (n + 1)).find? p =
      if p 0 then some 0
      else Option.map Nat.succ ((List.range n).find? (fun i => p (i + 1))) := by
  rw [List.range_succ_eq_map, List.find?_cons]
  cases h : p 0
  · simp only [h, List.find?_map]
    rfl
  · rfl

theorem getFirstReadyAux_eq_find (cq : CommandQueue) :
    ∀ (rem prevs : List Command),
      getFirstReadyAux cq prevs rem =
        match (List.range rem.length).find? (fun i =>
            entryOK cq (prevs ++ rem.take i) (rem.getD i Command.invalid)
              (rem.drop (i + 1))) with
        | some i =>
            cq.channel_state.getReadyCommand (rem.getD i Command.invalid)
              cq.clk
        | none => Command.invalid
  | [], prevs => by
      simp [getFirstReadyAux]
  | e :: rest, prevs => by
      rw [getFirstReadyAux_cons, List.length_cons, find_range_succ]
      have hp0 : entryOK cq (prevs ++ (e :: rest).take 0)
          ((e :: rest).getD 0 Command.invalid) ((e :: rest).drop (0 + 1)) =
          entryOK cq prevs e rest := by
        simp
      have hps : (fun i => entryOK cq (prevs ++ (e :: rest).take (i + 1))
          ((e :: rest).getD (i + 1) Command.invalid)
          ((e :: rest).drop (i + 1 + 1))) =
          (fun i => entryOK cq ((prevs ++ [e]) ++ rest.take i)
            (rest.getD i Command.invalid) (rest.drop (i + 1))) := by
        funext i
        simp only [List.take_succ_cons, List.getD_cons_succ,
          List.drop_succ_cons]
        rw [List.append_assoc, List.singleton_append]
      rw [getFirstReadyAux_eq_find cq rest (prevs ++ [e])]
      simp only [hp0, hps]
      cases hE : entryOK cq prevs e rest
      · simp only [Bool.false_eq_true, if_false]
        cases hF : (List.range rest.length).find? (fun i =>
            entryOK cq ((prevs ++ [e]) ++ rest.take i)
              (rest.getD i Command.invalid) (rest.drop (i + 1)))
        · rfl
        · rfl
      · simp only [if_true]
        rfl

/-- C1: `GetFirstReadyInQueue` refines the spec's queue walk: entries are
visited in insertion order, each is presented to ChannelState's
`GetReadyCommand`, an INVALID result is skipped, a PRECHARGE result is
returned only when `ArbitratePrecharge` accepts it, a WRITE result only when
`HasRWDependency` is false, any other valid result is returned at once, and
an INVALID command is returned when no entry yields a command. -/
theorem getFirstReady_refines_spec (cq : CommandQueue) (queue : List Command) :
    cq.GetFirstReadyInQueue queue = cq.specFirstReady queue := by
  rw [CommandQueue.GetFirstReadyInQueue, CommandQueue.specFirstReady,
    getFirstReadyAux_eq_find]
  simp only [List.nil_append]

/-- The element `l.getD j d` is among the first `i` elements when `j < i`. -/
theorem getD_mem_take {α : Type} :
    ∀ (l : List α) (i j : Nat) (d : α), j < i → j < l.length →
      l.getD j d ∈ l.take i
  | [], _, _, _, _, hlen => absurd hlen (by simp)
  | a :: l, i, 0, d, hji, _ => by
      cases i with
      | zero => exact absurd hji (by omega)
      | succ i => simp
  | a :: l, i, j + 1, d, hji, hlen => by
      cases i with
      | zero => exact absurd hji (by omega)
      | succ i =>
        simp only [List.take_succ_cons, List.getD_cons_succ]
        exact List.mem_cons_of_mem _
          (getD_mem_take l i j d (by omega) (by simpa using hlen))

/-- C3: `HasRWDependency` holds exactly when some earlier entry is a READ to
the same row, column, bank and bankgroup; consequently, whenever the arbiter's
queue walk returns a WRITE, the entry it came from has no queue-earlier READ
to the same (bankgroup, bank, row, column) — a WRITE behind such a READ is
never issued before it. -/
theorem write_blocked_by_earlier_read (cq : CommandQueue)
    (queue : List Command) :
    (∀ (prevs : List Command) (e : Command),
      HasRWDependency prevs e = true ↔
        ∃ p ∈ prevs, p.IsRead = true ∧ p.Row = e.Row ∧ p.Column = e.Column ∧
          p.Bank = e.Bank ∧ p.Bankgroup = e.Bankgroup) ∧
    ((cq.GetFirstReadyInQueue queue).IsWrite = true →
      ∃ i, i < queue.length ∧
        cq.GetFirstReadyInQueue queue =
          cq.channel_state.getReadyCommand (queue.getD i Command.invalid)
            cq.clk ∧
        ∀ j, j < i →
          ¬((queue.getD j Command.invalid).IsRead = true ∧
            (queue.getD j Command.invalid).Row =
              (queue.getD i Command.invalid).Row ∧
            (queue.getD j Command.invalid).Column =
              (queue.getD i Command.invalid).Column ∧
            (queue.getD j Command.invalid).Bank =
              (queue.getD i Command.invalid).Bank ∧
            (queue.getD j Command.invalid).Bankgroup =
              (queue.getD i Command.invalid).Bankgroup)) := by
  have hdep : ∀ (prevs : List Command) (e : Command),
      HasRWDependency prevs e = true ↔
        ∃ p ∈ prevs, p.IsRead = true ∧ p.Row = e.Row ∧ p.Column = e.Column ∧
          p.Bank = e.Bank ∧ p.Bankgroup = e.Bankgroup := by
    intro prevs e
    simp [HasRWDependency, List.any_eq_true]
  refine ⟨hdep, ?_⟩
  intro hw
  have heq := getFirstReadyAux_eq_find cq queue []
  rw [show getFirstReadyAux cq [] queue = cq.GetFirstReadyInQueue queue from
    rfl] at heq
  cases hF : (List.range queue.length).find? (fun i =>
      entryOK cq ([] ++ queue.take i) (queue.getD i Command.invalid)
        (queue.drop (i + 1))) with
  | none =>
      rw [heq, hF] at hw
      cases hw
  | some i =>
      have hi : i < queue.length :=
        List.mem_range.mp (List.mem_of_find?_eq_some hF)
      have hok := List.find?_some hF
      have hres : cq.GetFirstReadyInQueue queue =
          cq.channel_state.getReadyCommand (queue.getD i Command.invalid)
            cq.clk := by
        rw [heq, hF]
      refine ⟨i, hi, hres, ?_⟩
      rw [hres] at hw
      simp only [entryOK, Bool.and_eq_true, Bool.or_eq_true,
        Bool.not_eq_true'] at hok
      obtain ⟨⟨-, -⟩, hwr⟩ := hok
      rcases hwr with hw' | hdep'
      · rw [hw] at hw'
        cases hw'
      · intro j hj hc
        have hjlen : j < queue.length := lt_trans hj hi
        have hmem : queue.getD j Command.invalid ∈ queue.take i :=
          getD_mem_take queue i j _ hj hjlen
        have hcontra : HasRWDependency ([] ++ queue.take i)
            (queue.getD i Command.invalid) = true := by
          rw [List.nil_append]
          exact (hdep _ _).mpr ⟨_, hmem, hc.1, hc.2.1, hc.2.2.1, hc.2.2.2.1,
            hc.2.2.2.2⟩
        rw [hcontra] at hdep'
        cases hdep'

/-! ### The round-robin scan of `GetCommandToIssue` -/

theorem getCommandToIssueAux_notblocked (fuel : Nat) :
    ∀ (cq : CommandQueue) (cmd : Command) (idx : Nat) (cq' : CommandQueue),
      getCommandToIssueAux cq fuel = IssueResult.issued cmd idx cq' →
      cq.is_in_ref = true → idx ∉ cq.ref_q_indices := by
  induction fuel with
  | zero =>
    intro cq cmd idx cq' h _
    rw [getCommandToIssueAux] at h
    cases h
  | succ n ih =>
    intro cq cmd idx cq' h href
    rw [getCommandToIssueAux] at h
    dsimp only at h
    split at h
    · exact ih { cq with queue_idx := nextQueueIdx cq } cmd idx cq' h href
    · rename_i hnoskip
      split at h
      · split at h
        · split at h
          · cases h
            simp only [href, Bool.true_and] at hnoskip
            simpa [List.contains] using hnoskip
          · cases h
        · cases h
          simp only [href, Bool.true_and] at hnoskip
          simpa [List.contains] using hnoskip
      · exact ih { cq with queue_idx := nextQueueIdx cq } cmd idx cq' h href

/-- C5: while `is_in_ref_` is true, `GetCommandToIssue` never returns a
command drawn from a queue whose index is in `ref_q_indices_`: those queues
are skipped by the round-robin scan until the refresh completes. -/
theorem refresh_blocked_queue_not_issued (cq : CommandQueue) (cmd : Command)
    (idx : Nat) (cq' : CommandQueue) (href : cq.is_in_ref = true)
    (hissue : cq.GetCommandToIssue = IssueResult.issued cmd idx cq') :
    idx ∉ cq.ref_q_indices :=
  getCommandToIssueAux_notblocked cq.num_queues cq cmd idx cq' hissue href

/-- A READ to rank 1, linear address 9, sitting in queue 1. -/
def rd9 : Command :=
  { cmd_type := CommandType.READ,
    addr := { rank := 1, bankgroup := 0, bank := 0, row := 0, column := 0 },
    hex_addr := 9 }

/-- A state mid-refresh: queue 0 is blocked, queue 1 holds `rd9`. -/
def cq5w : CommandQueue :=
  { rank_q_empty := [false, false], config := cfg2, channel_state := csId,
    is_in_ref := true, queue_structure := QueueStructure.PER_RANK,
    num_queues := 2, queue_size := 4, queue_idx := 0, clk := 0,
    ref_q_indices := [0], queues := [[], [rd9]] }

def cq5wf : CommandQueue :=
  { cq5w with queue_idx := 1, queues := [[], []] }

theorem refresh_blocked_queue_not_issued_witness :
    (1 : Nat) ∉ cq5w.ref_q_indices :=
  refresh_blocked_queue_not_issued cq5w rd9 1 cq5wf rfl rfl

theorem eraseFirstRW_some :
    ∀ (queue : List Command) (cmd : Command) (q' : List Command),
      eraseFirstRW queue cmd = some q' →
      ∃ pre e post, queue = pre ++ e :: post ∧ q' = pre ++ post ∧
        cmd.hex_addr = e.hex_addr ∧ cmd.cmd_type = e.cmd_type ∧
        ∀ p ∈ pre, ¬(cmd.hex_addr = p.hex_addr ∧ cmd.cmd_type = p.cmd_type)
  | [], cmd, q', h => by
      rw [eraseFirstRW] at h
      cases h
  | e :: rest, cmd, q', h => by
      rw [eraseFirstRW] at h
      split at h
      · rename_i hm
        cases h
        exact ⟨[], e, rest, by simp, by simp, hm.1, hm.2, by simp⟩
      · rename_i hm
        cases hE : eraseFirstRW rest cmd with
        | none =>
            rw [hE] at h
            cases h
        | some q0 =>
            rw [hE] at h
            simp only [Option.map_some'] at h
            obtain ⟨pre, e', post, h1, h2, h3, h4, h5⟩ :=
              eraseFirstRW_some rest cmd q0 hE
            cases h
            refine ⟨e :: pre, e', post, by simp [h1], by simp [h2], h3, h4,
              ?_⟩
            · intro p hp
              rcases List.mem_cons.mp hp with hp' | hp'
              · rw [hp']
                exact hm
              · exact h5 p hp'

theorem getCommandToIssueAux_frame_issued (fuel : Nat) :
    ∀ (cq : CommandQueue) (cmd : Command) (idx : Nat) (cq' : CommandQueue),
      getCommandToIssueAux cq fuel = IssueResult.issued cmd idx cq' →
      (cmd.IsReadWrite = false → cq'.queues = cq.queues) ∧
      (cmd.IsReadWrite = true →
        ∃ q', eraseFirstRW (cq.queues.getD
            (cq.GetQueueIndex cmd.Rank cmd.Bankgroup cmd.Bank) []) cmd =
            some q' ∧
          cq'.queues = cq.queues.set
            (cq.GetQueueIndex cmd.Rank cmd.Bankgroup cmd.Bank) q') := by
  induction fuel with
  | zero =>
    intro cq cmd idx cq' h
    rw [getCommandToIssueAux] at h
    cases h
  | succ n ih =>
    intro cq cmd idx cq' h
    rw [getCommandToIssueAux] at h
    dsimp only at h
    split at h
    · exact ih { cq with queue_idx := nextQueueIdx cq } cmd idx cq' h
    · split at h
      · rename_i hvalid
        split at h
        · rename_i hrw
          split at h
          · rename_i cq2 hE
            cases h
            rw [CommandQueue.EraseRWCommand] at hE
            dsimp only at hE
            split at hE
            · rename_i q0 hq0
              cases hE
              exact ⟨fun hf => absurd hrw (by rw [hf]; simp),
                fun _ => ⟨q0, hq0, rfl⟩⟩
            · cases hE
          · cases h
        · rename_i hrw
          cases h
          rw [Bool.not_eq_true] at hrw
          exact ⟨fun _ => rfl, fun ht => absurd ht (by rw [hrw]; simp)⟩
      · exact ih { cq with queue_idx := nextQueueIdx cq } cmd idx cq' h

theorem getCommandToIssueAux_frame_nocmd (fuel : Nat) :
    ∀ (cq : CommandQueue) (cq' : CommandQueue),
      getCommandToIssueAux cq fuel = IssueResult.nocmd cq' →
      cq'.queues = cq.queues := by
  induction fuel with
  | zero =>
    intro cq cq' h
    rw [getCommandToIssueAux] at h
    cases h
    rfl
  | succ n ih =>
    intro cq cq' h
    rw [getCommandToIssueAux] at h
    dsimp only at h
    split at h
    · exact ih { cq with queue_idx := nextQueueIdx cq } cq' h
    · split at h
      · split at h
        · split at h
          · cases h
          · cases h
        · cases h
      · exact ih { cq with queue_idx := nextQueueIdx cq } cq' h

/-- C6: when `GetCommandToIssue` returns a READ or WRITE (auto-precharge
variants included), exactly the first entry of the queue addressed by the
returned command whose linear address and command type both match is removed,
and every other queue is untouched; when it returns a precursor (any valid
non-read/write command) or the INVALID command, all queues are unchanged. -/
theorem issue_erases_exactly_first_match (cq : CommandQueue) :
    (∀ (cmd : Command) (idx : Nat) (cq' : CommandQueue),
      cq.GetCommandToIssue = IssueResult.issued cmd idx cq' →
      cmd.IsReadWrite = true →
      ∃ pre e post,
        cq.queues.getD (cq.GetQueueIndex cmd.Rank cmd.Bankgroup cmd.Bank) [] =
          pre ++ e :: post ∧
        cmd.hex_addr = e.hex_addr ∧ cmd.cmd_type = e.cmd_type ∧
        (∀ p ∈ pre,
          ¬(cmd.hex_addr = p.hex_addr ∧ cmd.cmd_type = p.cmd_type)) ∧
        cq'.queues = cq.queues.set
          (cq.GetQueueIndex cmd.Rank cmd.Bankgroup cmd.Bank) (pre ++ post) ∧
        ∀ k, k ≠ cq.GetQueueIndex cmd.Rank cmd.Bankgroup cmd.Bank →
          cq'.queues.getD k [] = cq.queues.getD k []) ∧
    (∀ (cmd : Command) (idx : Nat) (cq' : CommandQueue),
      cq.GetCommandToIssue = IssueResult.issued cmd idx cq' →
      cmd.IsReadWrite = false → cq'.queues = cq.queues) ∧
    (∀ cq' : CommandQueue,
      cq.GetCommandToIssue = IssueResult.nocmd cq' → cq'.queues = cq.queues) := by
  refine ⟨?_, ?_, ?_⟩
  · intro cmd idx cq' h hrw
    obtain ⟨-, hsome⟩ := getCommandToIssueAux_frame_issued cq.num_queues cq
      cmd idx cq' h
    obtain ⟨q', hE, hset⟩ := hsome hrw
    obtain ⟨pre, e, post, h1, h2, h3, h4, h5⟩ :=
      eraseFirstRW_some _ cmd q' hE
    refine ⟨pre, e, post, h1, h3, h4, h5, by rw [hset, h2], ?_⟩
    intro k hk
    rw [hset, List.getD_eq_getElem?_getD, List.getElem?_set_ne (Ne.symm hk),
      ← List.getD_eq_getElem?_getD]
  · intro cmd idx cq' h hrw
    exact (getCommandToIssueAux_frame_issued cq.num_queues cq
      cmd idx cq' h).1 hrw
  · intro cq' h
    exact getCommandToIssueAux_frame_nocmd cq.num_queues cq cq' h

/-! ### `FinishRefresh` -/

/-- Modelled from the spec: `ChannelState::GetReadyCommand` on a refresh
candidate (`channel_state.cc` is not among the staged sources).  Per §4.6 the
result is a PRECHARGE while a covered bank is still open, or the
REFRESH/REFRESH_BANK itself once all covered banks are quiesced; per §4.2
"The precursor returned must itself be checked for timing readiness; if its
earliest_cycle > clk the function yields INVALID".  `openBank` is a still-open
covered bank, if any; `prechargeReady` and `refreshReady` say whether timing
admits the respective command at this cycle. -/
def specRefreshReady (openBank : Option Address)
    (prechargeReady refreshReady : Bool) (ref : Command) : Command :=
  match openBank with
  | some a =>
      if prechargeReady then
        { cmd_type := CommandType.PRECHARGE, addr := a, hex_addr := 0 }
      else Command.invalid
  | none => if refreshReady then ref else Command.invalid

/-- C4 (amended): `FinishRefresh` hands the pending refresh to ChannelState's
`GetReadyCommand` and returns the result — a PRECHARGE, the pending
REFRESH/REFRESH_BANK itself, or an INVALID command when timing does not yet
admit either; on first entry (`is_in_ref_` false) and while the result is not
the refresh itself, the blocked queue-index set is computed from the pending
refresh and `is_in_ref_` is set; and exactly when the refresh command itself
is returned, `ref_q_indices_` is cleared and `is_in_ref_` reset to false. -/
theorem finishRefresh_resolution (cq : CommandQueue)
    (href : cq.channel_state.pendingRef.IsRefresh = true)
    (hready : (cq.channel_state.getReadyCommand cq.channel_state.pendingRef
        cq.clk).cmd_type = CommandType.PRECHARGE ∨
      (cq.channel_state.getReadyCommand cq.channel_state.pendingRef
        cq.clk).cmd_type = CommandType.INVALID ∨
      cq.channel_state.getReadyCommand cq.channel_state.pendingRef cq.clk =
        cq.channel_state.pendingRef) :
    ((cq.FinishRefresh).1.cmd_type = CommandType.PRECHARGE ∨
      (cq.FinishRefresh).1.cmd_type = CommandType.INVALID ∨
      (cq.FinishRefresh).1 = cq.channel_state.pendingRef) ∧
    (cq.is_in_ref = false → (cq.FinishRefresh).1.IsRefresh = false →
      (cq.FinishRefresh).2.ref_q_indices =
        cq.GetRefQIndices cq.channel_state.pendingRef ∧
      (cq.FinishRefresh).2.is_in_ref = true) ∧
    ((cq.FinishRefresh).1 = cq.channel_state.pendingRef ↔
      ((cq.FinishRefresh).2.is_in_ref = false ∧
        (cq.FinishRefresh).2.ref_q_indices = [])) := by
  have hcmd : (cq.FinishRefresh).1 =
      cq.channel_state.getReadyCommand cq.channel_state.pendingRef cq.clk := by
    simp only [CommandQueue.FinishRefresh]
    split
    · rfl
    · rfl
  refine ⟨?_, ?_, ?_⟩
  · rw [hcmd]
    exact hready
  · intro h0 hnr
    have hnr' : (cq.channel_state.getReadyCommand cq.channel_state.pendingRef
        cq.clk).IsRefresh = false := by
      rw [← hcmd]
      exact hnr
    have h2 : (cq.FinishRefresh).2 = { cq with
        ref_q_indices := cq.GetRefQIndices cq.channel_state.pendingRef,
        is_in_ref := true } := by
      simp only [CommandQueue.FinishRefresh]
      rw [if_neg (by rw [hnr']; simp), if_pos (by rw [h0]; rfl)]
    rw [h2]
    exact ⟨rfl, rfl⟩
  · constructor
    · intro heq
      have hisr : (cq.channel_state.getReadyCommand cq.channel_state.pendingRef
          cq.clk).IsRefresh = true := by
        rw [← hcmd, heq]
        exact href
      have h2 : (cq.FinishRefresh).2.is_in_ref = false ∧
          (cq.FinishRefresh).2.ref_q_indices = [] := by
        simp only [CommandQueue.FinishRefresh]
        rw [if_pos hisr]
        exact ⟨rfl, rfl⟩
      exact h2
    · rintro ⟨hin, -⟩
      rw [hcmd]
      by_contra hne
      have hnr' : (cq.channel_state.getReadyCommand cq.channel_state.pendingRef
          cq.clk).IsRefresh = false := by
        rcases hready with h | h | h
        · simp [Command.IsRefresh, h]
        · simp [Command.IsRefresh, h]
        · exact absurd h hne
      have h2 : (cq.FinishRefresh).2 =
          (if !cq.is_in_ref then { cq with
              ref_q_indices := cq.GetRefQIndices cq.channel_state.pendingRef,
              is_in_ref := true }
            else cq) := by
        simp only [CommandQueue.FinishRefresh]
        rw [if_neg (by rw [hnr']; simp)]
      rw [h2] at hin
      by_cases h0 : cq.is_in_ref = true
      · rw [if_neg (by rw [h0]; simp)] at hin
        rw [h0] at hin
        cases hin
      · rw [Bool.not_eq_true] at h0
        rw [if_pos (by rw [h0]; rfl)] at hin
        cases hin

def addr000 : Address :=
  { rank := 0, bankgroup := 0, bank := 0, row := 0, column := 0 }

/-- A pending rank-wide refresh to rank 0. -/
def refRank0 : Command :=
  { cmd_type := CommandType.REFRESH, addr := addr000, hex_addr := 0 }

/-- A channel state whose pending rank refresh finds bank (0,0,0) still open
with the precharge precursor not yet timing-ready, so spec §4.2 makes the
ready command INVALID. -/
def csStall : ChannelState :=
  { getReadyCommand := fun _ _ =>
      specRefreshReady (some addr000) false false refRank0,
    openRow := fun _ _ _ => 0,
    rowHitCount := fun _ _ _ => 0,
    pendingRef := refRank0 }

/-- A channel state whose pending rank refresh finds bank (0,0,0) still open
and the precharge precursor timing-ready. -/
def csPre : ChannelState :=
  { getReadyCommand := fun _ _ =>
      specRefreshReady (some addr000) true false refRank0,
    openRow := fun _ _ _ => 0,
    rowHitCount := fun _ _ _ => 0,
    pendingRef := refRank0 }

def cq4cex : CommandQueue :=
  { rank_q_empty := [false], config := cfg1, channel_state := csStall,
    is_in_ref := false, queue_structure := QueueStructure.PER_RANK,
    num_queues := 1, queue_size := 2, queue_idx := 0, clk := 0,
    ref_q_indices := [], queues := [[rd5]] }

def cq4w : CommandQueue :=
  { rank_q_empty := [false], config := cfg1, channel_state := csPre,
    is_in_ref := false, queue_structure := QueueStructure.PER_RANK,
    num_queues := 1, queue_size := 2, queue_idx := 0, clk := 0,
    ref_q_indices := [], queues := [[rd5]] }

/-- C4 counterexample: with a genuine pending refresh whose covered bank is
still open and whose precharge precursor is not yet timing-ready,
`FinishRefresh` returns an INVALID command — neither a PRECHARGE nor the
pending REFRESH/REFRESH_BANK command. -/
theorem finishRefresh_claim_counterexample :
    cq4cex.channel_state.pendingRef.IsRefresh = true ∧
    cq4cex.is_in_ref = false ∧
    (cq4cex.FinishRefresh).1.cmd_type ≠ CommandType.PRECHARGE ∧
    (cq4cex.FinishRefresh).1.IsRefresh = false := by
  refine ⟨rfl, rfl, ?_, rfl⟩
  intro h
  cases h

theorem finishRefresh_resolution_witness :
    (cq4w.FinishRefresh).1.cmd_type = CommandType.PRECHARGE ∨
      (cq4w.FinishRefresh).1.cmd_type = CommandType.INVALID ∨
      (cq4w.FinishRefresh).1 = cq4w.channel_state.pendingRef :=
  (finishRefresh_resolution cq4w rfl (Or.inl rfl)).1

end Dramsim3
